import Mathlib

/-!
Verification of the declarative-configuration reconciliation engine used by
the `junos_firewall` and `junos_pbr` Ansible modules
(`lib/ansible/modules/network/junos/junos_firewall.py`,
`lib/ansible/modules/network/junos/junos_pbr.py`).

The two modules share a transactional apply section (firewall lines 265-281,
pbr lines 160-175): acquire the configuration lock (`with locked_config`),
submit each rendered request tree via `load_config(..., action='replace')`
storing its returned diff in the local variable `diff`, then — still inside
the locked block — commit when a diff exists and check mode is off, discard
when a diff exists and check mode is on, and finally release the lock when
the `with` block exits (also on exceptions).

The embedding models the transport collaborators (`locked_config`,
`load_config`, `commit_configuration`, `discard_changes`) as an abstract
`Device` oracle plus an event trace, and the module exit
(`exit_json` / `fail_json` / an uncaught `NameError`) as an `Outcome`.
-/

namespace Junos

/-- Python truthiness of the `diff` value returned by `load_config`:
`None` and the empty string are falsy, any other string is truthy. -/
def truthy : Option String → Bool
  | none => false
  | some s => !(s == "")

/-- Transport-level events, in the order the engine performs them.
`replace i` is the `load_config(..., action='replace')` call for the
`i`-th rendered request tree. -/
inductive Event where
  | lock
  | unlock
  | replace (i : Nat)
  | commit
  | discard
deriving DecidableEq, Repr

/-- The device/transport oracle: what each `load_config` replace submission
returns (`Except.error` models the call raising via `fail_json`, `Except.ok d`
models it returning diff `d`), and what `commit_configuration` does. -/
structure Device where
  replaceResult : Nat → Except String (Option String)
  commitResult : Except String Unit

/-- How a module invocation terminates.
`ok changed diff` is `module.exit_json(**result)` with `result['changed']`
and the optional `result['diff']['prepared']`; `validationFailed` is a
`fail_json` (or argument-validation failure) before the locked section;
`applyFailed` is `load_config` failing inside the locked section;
`commitFailed` is `commit_configuration` failing; `nameError` is the
uncaught `NameError` raised by reading an unbound local `diff`. -/
inductive Outcome where
  | ok (changed : Bool) (diff : Option String)
  | validationFailed (msg : String)
  | applyFailed (msg : String)
  | commitFailed (msg : String)
  | nameError
deriving DecidableEq, Repr

/-- The `for req in requests: diff = load_config(...)` loop.
`n` is the number of remaining requests, `i` the index of the next one and
`acc` the current state of the local variable `diff`: `none` means unbound
(no assignment has happened yet), `some d` means it holds `d`.
Returns the replace events emitted and either the device error that aborted
the loop or the final state of `diff`. -/
def applyLoop (dev : Device) : Nat → Nat → Option (Option String) →
    List Event × Except String (Option (Option String))
  | 0, _, acc => ([], Except.ok acc)
  | n + 1, i, _acc =>
    match dev.replaceResult i with
    | Except.error e => ([Event.replace i], Except.error e)
    | Except.ok d =>
      let r := applyLoop dev n (i + 1) (some d)
      (Event.replace i :: r.1, r.2)

/-- The decision step (firewall lines 270-279 / pbr lines 164-173), applied
to the final value `diff` of the loop variable, still inside the locked
section: `commit = not module.check_mode; if diff: commit or discard,
result['changed'] = True, and result['diff'] when the diff option is on`.
`evs` is the trace accumulated so far; the lock release of the `with` block
exit is appended on every path. -/
def decideStep (dev : Device) (check_mode diffOpt : Bool) (diff : Option String)
    (evs : List Event) : List Event × Outcome :=
  if truthy diff then
    if !check_mode then
      match dev.commitResult with
      | Except.error e => (evs ++ [Event.commit, Event.unlock], Outcome.commitFailed e)
      | Except.ok _ =>
        (evs ++ [Event.commit, Event.unlock],
         Outcome.ok true (if diffOpt then diff else none))
    else
      (evs ++ [Event.discard, Event.unlock],
       Outcome.ok true (if diffOpt then diff else none))
  else
    (evs ++ [Event.unlock], Outcome.ok false none)

/-- The whole locked section: `with locked_config(module):` around the
apply loop and the decision step. `init` is the state of the local `diff`
on entry: `junos_firewall` runs `diff = None` before the loop
(`init = some none`), `junos_pbr` does not (`init = none`, i.e. unbound).
Reading an unbound `diff` in `if diff:` raises `NameError`; the `with`
block still releases the lock while the exception propagates. -/
def runEngine (dev : Device) (n : Nat) (check_mode diffOpt : Bool)
    (init : Option (Option String)) : List Event × Outcome :=
  let r := applyLoop dev n 0 init
  match r.2 with
  | Except.error e => (Event.lock :: r.1 ++ [Event.unlock], Outcome.applyFailed e)
  | Except.ok none => (Event.lock :: r.1 ++ [Event.unlock], Outcome.nameError)
  | Except.ok (some d) => decideStep dev check_mode diffOpt d (Event.lock :: r.1)

/-- The locked section of `junos_firewall.main` (lines 265-281):
`diff = None` precedes the loop. -/
def junos_firewall_engine (dev : Device) (n : Nat) (check_mode diffOpt : Bool) :
    List Event × Outcome :=
  runEngine dev n check_mode diffOpt (some none)

/-- The locked section of `junos_pbr.main` (lines 160-175): `diff` is only
assigned inside the loop, so it is unbound when the loop body never runs. -/
def junos_pbr_engine (dev : Device) (n : Nat) (check_mode diffOpt : Bool) :
    List Event × Outcome :=
  runEngine dev n check_mode diffOpt none

/-! ## XML model and the `set_term_ele` renderer of `junos_firewall`

`set_term_ele` (junos_firewall.py lines 185-198) turns each term dict into
an XML `<term>` node via `jxmlease.XMLDictNode({'term': term}).emit_xml()`
parsed back with `lxml.etree.fromstring`, moves the `<name>` child to the
front with `xml_tree.insert(0, xml_tree.find('name'))` (lxml moves an
element that is already a child), and appends the node to the first
`filter` element found by `ele.xpath('//filter')`. -/

/-- An XML element: tag, optional text content, ordered children.
(Attributes play no role in the verified claims and are omitted.) -/
inductive XNode where
  | elem (tag : String) (text : Option String) (children : List XNode)
deriving Repr

/-- Python values appearing in a term dict: strings, `None`, lists and
nested dicts (insertion-ordered, as Python dicts are). -/
inductive PyVal where
  | str (s : String)
  | null
  | list (xs : List PyVal)
  | dict (fields : List (String × PyVal))
deriving Repr

/-- A term, as the Python dict the module receives: an insertion-ordered
association list. -/
abbrev TermDict := List (String × PyVal)

/-- Python truthiness used by `if not term.get('name')`: `None`, `''`,
`[]` and an empty dict are falsy. -/
def pyTruthy : PyVal → Bool
  | PyVal.str s => !(s == "")
  | PyVal.null => false
  | PyVal.list xs => !xs.isEmpty
  | PyVal.dict fs => !fs.isEmpty

/-- `d.get(k)`: the value of the first matching key, if any. -/
def dictGet (m : TermDict) (k : String) : Option PyVal :=
  (m.find? (fun kv => kv.1 == k)).map (fun kv => kv.2)

/-- `d[k] = v`: update in place when the key exists (Python keeps its
position), else append the new key at the end of the dict. -/
def dictSet (m : TermDict) (k : String) (v : PyVal) : TermDict :=
  if m.any (fun kv => kv.1 == k) then
    m.map (fun kv => if kv.1 == k then (k, v) else kv)
  else
    m ++ [(k, v)]

/-- `not term.get('name')` negated: whether the term already carries a
truthy name. -/
def truthyName (t : TermDict) : Bool :=
  (dictGet t "name").elim false pyTruthy

/-- Whether a value is a Python list.  At the top level of a validated
term dict no value is a list (the argument spec types `name` as str and
`from`/`then` as dict; lists occur only inside the sub-blocks), which
several renderer lemmas assume. -/
def isListVal : PyVal → Bool
  | PyVal.list _ => true
  | _ => false

mutual

/-- `jxmlease.XMLDictNode` emission of one value under a tag: a string
becomes a leaf with text, `None` a childless textless leaf (how flag-style
actions like `accept:` are expressed), a list becomes repeated sibling
leaves sharing the tag, and a dict a container with its fields rendered
in order. -/
def renderVal (tag : String) : PyVal → List XNode
  | PyVal.str s => [XNode.elem tag (some s) []]
  | PyVal.null => [XNode.elem tag none []]
  | PyVal.list xs => renderList tag xs
  | PyVal.dict fs => [XNode.elem tag none (renderFields fs)]

/-- Renders each list element under the shared tag. -/
def renderList (tag : String) : List PyVal → List XNode
  | [] => []
  | v :: vs => renderVal tag v ++ renderList tag vs

/-- Renders the fields of a dict, in insertion order. -/
def renderFields : List (String × PyVal) → List XNode
  | [] => []
  | kv :: fs => renderVal kv.1 kv.2 ++ renderFields fs

end

/-- The tag of an element. -/
def tagOf : XNode → String
  | XNode.elem tag _ _ => tag

/-- The children of an element. -/
def childrenOf : XNode → List XNode
  | XNode.elem _ _ ch => ch

/-- The text of an element. -/
def textOf : XNode → Option String
  | XNode.elem _ txt _ => txt

/-- The single node rendered for a dict entry whose value is not a list
(the list case is a placeholder, unreachable when `isListVal` is false). -/
def nodeOf (k : String) (v : PyVal) : XNode :=
  match v with
  | PyVal.str s => XNode.elem k (some s) []
  | PyVal.null => XNode.elem k none []
  | PyVal.dict fs => XNode.elem k none (renderFields fs)
  | PyVal.list _ => XNode.elem k none []

/-- The name a term node carries: the text of its first `name`-tagged
child. -/
def termNameOf (x : XNode) : Option String :=
  match (childrenOf x).find? (fun c => tagOf c == "name") with
  | some c => textOf c
  | none => none

/-- `'term_' + str(i)`: the synthetic positional term name. -/
def termName (i : Nat) : String := "term_" ++ Nat.repr i

/-- The auto-naming step: `if not term.get('name'): term['name'] = 'term_' + str(i)`. -/
def assignName (i : Nat) (t : TermDict) : TermDict :=
  if truthyName t then t
  else dictSet t "name" (PyVal.str (termName i))

/-- `xml_tree.insert(0, xml_tree.find('name'))` under lxml semantics:
inserting an element that is already a child moves it, so the first
`name`-tagged child is moved to the front.  (The fallback
`xml.etree.ElementTree` import of the module would instead duplicate the
element; the primary lxml branch is modelled.)  The `none` case is
unreachable in the module because `assignName` guarantees a name key. -/
def moveNameToFront (ch : List XNode) : List XNode :=
  match ch.find? (fun c => tagOf c == "name") with
  | none => ch
  | some nm => nm :: ch.eraseP (fun c => tagOf c == "name")

/-- One iteration of the `for i, term in enumerate(term)` loop body:
auto-name, emit via jxmlease, move the name child to the front. -/
def buildTermNode (i : Nat) (t : TermDict) : XNode :=
  XNode.elem "term" none (moveNameToFront (renderFields (assignName i t)))

/-- All term nodes of one filter, in order. -/
def termNodes (ts : List TermDict) : List XNode :=
  ts.enum.map (fun it => buildTermNode it.1 it.2)

mutual

/-- `ele.xpath('//filter')[0]` followed by `filter_ele.append(...)`:
append `new` to the children of the first element with tag `filter`, in
document (preorder) order.  The `Bool` component records whether a filter
element was found in this subtree. -/
def appendFirstFilter (new : List XNode) : XNode → XNode × Bool
  | XNode.elem tag txt ch =>
    if tag == "filter" then (XNode.elem tag txt (ch ++ new), true)
    else
      let r := appendFirstFilterL new ch
      (XNode.elem tag txt r.1, r.2)

def appendFirstFilterL (new : List XNode) : List XNode → List XNode × Bool
  | [] => ([], false)
  | c :: cs =>
    let r := appendFirstFilter new c
    if r.2 then (r.1 :: cs, true)
    else
      let rs := appendFirstFilterL new cs
      (c :: rs.1, rs.2)

end

/-- `set_term_ele(ele, term)` (junos_firewall.py lines 185-198).  A falsy
`terms` (`None` or the empty list, both modelled by `[]`) returns the
anchor tree unmodified; otherwise every term node is appended to the
first `filter` element. -/
def set_term_ele (ele : XNode) (terms : List TermDict) : XNode :=
  if terms.isEmpty then ele
  else (appendFirstFilter (termNodes terms) ele).1

/-! ## Parameter records, normalization and the two module pipelines -/

/-- One resolved `junos_firewall` configuration unit (the keys of its
`element_spec`); `none` models a Python `None` value. -/
structure FwItem where
  name : Option String := none
  terms : Option (List TermDict) := none
  state : Option String := none
  family : Option String := none
  active : Option Bool := none
deriving Repr

/-- The caller-facing parameters of `junos_firewall.main`, after
`AnsibleModule` fills spec defaults (`state='present'`, `family='inet'`,
`active=True`), plus the check-mode and diff flags. -/
structure FwParams where
  aggregate : Option (List FwItem) := none
  name : Option String := none
  terms : Option (List TermDict) := none
  state : Option String := some "present"
  family : Option String := some "inet"
  active : Option Bool := some true
  check_mode : Bool := false
  diffMode : Bool := false

/-- The top-level parameter set viewed as a single item. -/
def fwTopItem (p : FwParams) : FwItem :=
  { name := p.name, terms := p.terms, state := p.state, family := p.family,
    active := p.active }

/-- Modelled from the spec: `to_param_list` (module_utils, not under src)
— the Parameter Normalizer "expands an 'aggregate' (bulk) list into
independent unit requests", else yields the single top-level parameter
set (§2, §4.1). -/
def to_param_list_fw (p : FwParams) : List FwItem :=
  match p.aggregate with
  | some l => l
  | none => [fwTopItem p]

/-- Field-by-field fallback: `if param.get(key) is None: param[key] =
module.params[key]` (junos_firewall.py lines 255-257, junos_pbr.py lines
146-148). -/
def orD {α : Type} : Option α → Option α → Option α
  | some x, _ => some x
  | none, b => b

/-- The per-item default merge of `junos_firewall.main`. -/
def fwResolve (p : FwParams) (it : FwItem) : FwItem :=
  { name := orD it.name p.name, terms := orD it.terms p.terms,
    state := orD it.state p.state, family := orD it.family p.family,
    active := orD it.active p.active }

/-- Modelled from the spec: `map_obj_to_ele` (module_utils, not under src)
— the XPath-to-Tree Mapper roots the request tree at the anchor path
`firewall/family/<family>/filter` and renders the key field `name` as a
leaf with the value as text; "absent-valued fields are omitted entirely"
(§4.2).  Operation/active attributes are outside the claims and omitted.
A Python `None` family is formatted as the string `"None"` by
`'firewall/family/{}/filter'.format(...)`. -/
def fw_map_obj_to_ele (family : Option String) (nameVal : Option String) : XNode :=
  XNode.elem "firewall" none
    [XNode.elem "family" none
      [XNode.elem (family.getD "None") none
        [XNode.elem "filter" none
          ((nameVal.map (fun s => XNode.elem "name" (some s) [])).toList)]]]

/-- The rendered request of one resolved firewall item (mapper output fed
through `set_term_ele`). -/
def fwRequest (it : FwItem) : XNode :=
  set_term_ele (fw_map_obj_to_ele it.family it.name) (it.terms.getD [])

/-- `junos_firewall.main` end to end: the mutually-exclusive
aggregate/name validation (declared at lines 230-231 and enforced by
`AnsibleModule`, modelled from the spec: "supplying both is an error"
§4.1), parameter expansion, per-item default merge, request rendering,
then the locked apply/decide section.  (`required_one_of` is not exercised
by any claim and is not modelled.) -/
def junos_firewall_run (p : FwParams) (dev : Device) : List Event × Outcome :=
  if p.aggregate.isSome && p.name.isSome then
    ([], Outcome.validationFailed "parameters are mutually exclusive: aggregate|name")
  else
    let requests := (to_param_list_fw p).map (fun it => fwRequest (fwResolve p it))
    junos_firewall_engine dev requests.length p.check_mode p.diffMode

/-- One resolved `junos_pbr` configuration unit.  `type` is not in the
argument spec; `main` adds it (`item['type'] = 'forwarding'`, line 155). -/
structure PbrItem where
  name : Option String := none
  address : Option String := none
  next_hop : Option String := none
  state : Option String := none
  active : Option Bool := none
  type : Option String := none
deriving DecidableEq, Repr

/-- The caller-facing parameters of `junos_pbr.main`, after spec defaults
(`state='present'`, `active=True`). -/
structure PbrParams where
  aggregate : Option (List PbrItem) := none
  name : Option String := none
  address : Option String := none
  next_hop : Option String := none
  state : Option String := some "present"
  active : Option Bool := some true
  check_mode : Bool := false
  diffMode : Bool := false

/-- The top-level parameter set viewed as a single item. -/
def pbrTopItem (p : PbrParams) : PbrItem :=
  { name := p.name, address := p.address, next_hop := p.next_hop,
    state := p.state, active := p.active, type := none }

/-- Modelled from the spec: `to_param_list` for `junos_pbr` (module_utils,
not under src), as for the firewall module. -/
def to_param_list_pbr (p : PbrParams) : List PbrItem :=
  match p.aggregate with
  | some l => l
  | none => [pbrTopItem p]

/-- The per-item default merge of `junos_pbr.main` (lines 146-148); the
keys iterated are those of the item dict, which never include `type`. -/
def pbrResolve (p : PbrParams) (it : PbrItem) : PbrItem :=
  { name := orD it.name p.name, address := orD it.address p.address,
    next_hop := orD it.next_hop p.next_hop, state := orD it.state p.state,
    active := orD it.active p.active, type := it.type }

/-- The per-item body of `junos_pbr.main` (lines 144-155): default merge,
the `state == 'present'` coupled-pair check `if not item['address'] and
item['next_hop']: fail_json(...)`, then the unconditional
`item['type'] = 'forwarding'`. -/
def pbrProcessItem (p : PbrParams) (it0 : PbrItem) : Except String PbrItem :=
  let item := pbrResolve p it0
  if item.state == some "present" && !(truthy item.address) && truthy item.next_hop then
    Except.error "parameters are required together: ['address', 'next_hop']"
  else
    Except.ok { item with type := some "forwarding" }

/-- A field-to-xpath entry, as the dict values of `param_to_xpath_map`
(plain-string entries stand for `{xpath := s}`). -/
structure XPathSpec where
  xpath : String
  top : Option String := none
  is_key : Bool := false
deriving DecidableEq, Repr

/-- `param_to_xpath_map` of `junos_pbr.main` (lines 131-139), in order. -/
def pbr_param_to_xpath_map : List (String × XPathSpec) :=
  [("name", { xpath := "name", is_key := true }),
   ("description", { xpath := "description" }),
   ("type", { xpath := "instance-type" }),
   ("address", { xpath := "name", top := some "routing-options/static/route" }),
   ("next_hop", { xpath := "next-hop", top := some "routing-options/static/route" })]

/-- One mapped node of a rendered request: the anchor it is rooted under
(the spec top override when present, else the default anchor), its
relative xpath, its text value and the identity marker. -/
structure MappedNode where
  base : String
  xpath : String
  value : String
  is_key : Bool
deriving DecidableEq, Repr

/-- Modelled from the spec: `map_params_to_obj`/`map_obj_to_ele`
(module_utils, not under src) — §4.2: "given an ordered list of
(field, XPathSpec) pairs, an anchor path, and a resolved ConfigItem,
build an element tree where each key-bearing field becomes an
identity-matched node at anchor/spec.top-or-anchor/spec.xpath, with its
value as the node's text content. ... Absent-valued fields are omitted
entirely (no empty nodes)." -/
def map_params_to_obj (specs : List (String × XPathSpec)) (anchor : String)
    (get : String → Option String) : List MappedNode :=
  specs.filterMap fun ps =>
    (get ps.1).map fun v =>
      { base := ps.2.top.getD anchor, xpath := ps.2.xpath, value := v,
        is_key := ps.2.is_key }

/-- Field lookup on a pbr item dict.  `description` is never a key of the
item dict (it is absent from the argument spec), so the mapper omits it. -/
def pbrItemGet (it : PbrItem) : String → Option String := fun k =>
  if k == "name" then it.name
  else if k == "address" then it.address
  else if k == "next_hop" then it.next_hop
  else if k == "type" then it.type
  else none

/-- `top = 'routing-instances/instance'` (junos_pbr.py line 129). -/
def pbrTop : String := "routing-instances/instance"

/-- The rendered request of one processed pbr item. -/
def pbrRequest (it : PbrItem) : List MappedNode :=
  map_params_to_obj pbr_param_to_xpath_map pbrTop (pbrItemGet it)

/-- `junos_pbr.main` end to end: mutually-exclusive aggregate/address
validation (lines 115-116, enforced by `AnsibleModule`, modelled from the
spec §4.1), parameter expansion, the per-item loop (`fail_json` aborts the
whole invocation before the locked section), then the locked section —
which, unlike the firewall module, enters with `diff` unbound. -/
def junos_pbr_run (p : PbrParams) (dev : Device) : List Event × Outcome :=
  if p.aggregate.isSome && p.address.isSome then
    ([], Outcome.validationFailed "parameters are mutually exclusive: aggregate|address")
  else
    match (to_param_list_pbr p).mapM (pbrProcessItem p) with
    | Except.error e => ([], Outcome.validationFailed e)
    | Except.ok items =>
      let requests := items.map pbrRequest
      junos_pbr_engine dev requests.length p.check_mode p.diffMode

/-! ## Decimal digit helpers used to reason about `Nat.repr`
(`'term_' + str(i)` in the source). -/

/-- Numeric value of a decimal digit character. -/
def digitVal (c : Char) : Nat := c.toNat - '0'.toNat

/-- The decimal digits of a number, most significant first — the
specification-level counterpart of `Nat.toDigits 10`. -/
def natDigits (n : Nat) : List Char :=
  if h : n / 10 = 0 then [Nat.digitChar (n % 10)]
  else natDigits (n / 10) ++ [Nat.digitChar (n % 10)]
decreasing_by
  have hn : 0 < n := by
    rcases Nat.eq_zero_or_pos n with h0 | h0
    · subst h0; simp at h
    · exact h0
  exact Nat.div_lt_self hn (by omega)

/-- Decimal decoding, a left inverse of `natDigits`. -/
def decodeDigits (l : List Char) : Nat :=
  l.foldl (fun a c => 10 * a + digitVal c) 0

/-! ## Concrete devices and parameter sets used by witnesses and
counterexamples -/

/-- A device on which every replace submission stages nothing (an
already-converged device). -/
def devNoDiff : Device := ⟨fun _ => Except.ok none, Except.ok ()⟩

/-- A device on which every replace submission returns a diff. -/
def devBigDiff : Device := ⟨fun _ => Except.ok (some "+ term added"), Except.ok ()⟩

/-- A device where the first submission returns a non-empty diff and the
second returns none. -/
def devLostDiff : Device :=
  ⟨fun i => if i == 0 then Except.ok (some "+ filter one") else Except.ok none,
   Except.ok ()⟩

/-- A device that rejects the second (index 1) replace submission. -/
def devRejectSecond : Device :=
  ⟨fun i => if i == 1 then Except.error "config rejected" else Except.ok (some "+ staged"),
   Except.ok ()⟩

/-- A pbr invocation supplying `aggregate` as an empty list. -/
def pbrEmptyAggParams : PbrParams := { aggregate := some [] }

/-- A pbr invocation with `state=present` and `address` supplied but no
`next_hop`. -/
def pbrMissingNextHop : PbrParams := { name := some "pbr1", address := some "10.0.0.0/24" }

/-- A pbr invocation with `state=present` and a truthy `next_hop` but a
falsy `address`. -/
def pbrMissingAddress : PbrParams :=
  { name := some "pbr1", address := some "", next_hop := some "192.168.199.3" }

/-- A complete pbr invocation. -/
def pbrFullParams : PbrParams :=
  { name := some "pbr1", address := some "10.0.0.0/24", next_hop := some "192.168.199.3" }

/-- The item `pbrFullParams` resolves to after `main`'s per-item body. -/
def pbrFullResolved : PbrItem :=
  { name := some "pbr1", address := some "10.0.0.0/24",
    next_hop := some "192.168.199.3", state := some "present",
    active := some true, type := some "forwarding" }

/-- Two terms whose names collide: the first names itself `term_1`
explicitly, the second is auto-named `term_1` by position. -/
def collidingTerms : List TermDict :=
  [[("name", PyVal.str "term_1")], []]

/-- A typical unnamed term: `{'then': {'discard': None}}`. -/
def discardTerm : TermDict := [("then", PyVal.dict [("discard", PyVal.null)])]

/-- A term whose fields were supplied with the name last. -/
def reorderedTerm : TermDict :=
  [("then", PyVal.dict [("discard", PyVal.null)]), ("name", PyVal.str "t9")]

/-- When every remaining submission succeeds, the loop emits one replace
event per request, in order, and leaves the local `diff` holding the result
of the last submission (or its entry state if there were no requests). -/
theorem applyLoop_ok (dev : Device) (d : Nat → Option String) :
    ∀ (n i : Nat) (init : Option (Option String)),
      (∀ j, j < n → dev.replaceResult (i + j) = Except.ok (d (i + j))) →
      applyLoop dev n i init =
        ((List.range' i n).map Event.replace,
         Except.ok (if n = 0 then init else some (d (i + n - 1)))) := by
  intro n
  induction n with
  | zero => intro i init _; rfl
  | succ m ih =>
    intro i init h
    have h0 : dev.replaceResult i = Except.ok (d i) := by
      have := h 0 (Nat.succ_pos m)
      simpa using this
    have hrest : ∀ j, j < m → dev.replaceResult (i + 1 + j) = Except.ok (d (i + 1 + j)) := by
      intro j hj
      have := h (j + 1) (Nat.succ_lt_succ hj)
      simpa [Nat.add_comm, Nat.add_left_comm, Nat.add_assoc] using this
    simp only [applyLoop, h0, ih (i + 1) (some (d i)) hrest, List.range'_succ, List.map_cons]
    by_cases hm : m = 0
    · subst hm; simp
    · have harith : i + 1 + m - 1 = i + (m + 1) - 1 := by omega
      simp [if_neg hm, harith]

/-- When the `f`-th submission is rejected and all earlier ones succeed, the
loop stops right there: it emits exactly the replace events `i .. i+f` and
aborts with the device-reported error. -/
theorem applyLoop_error (dev : Device) (e : String) :
    ∀ (f n i : Nat) (init : Option (Option String)),
      f < n →
      dev.replaceResult (i + f) = Except.error e →
      (∀ k, k < f → ∃ dk, dev.replaceResult (i + k) = Except.ok dk) →
      applyLoop dev n i init =
        ((List.range' i (f + 1)).map Event.replace, Except.error e) := by
  intro f
  induction f with
  | zero =>
    intro n i init hfn herr _
    rcases n with _ | m
    · exact absurd hfn (Nat.not_lt_zero 0)
    · simp only [Nat.add_zero] at herr
      simp [applyLoop, herr, List.range'_succ]
  | succ f ih =>
    intro n i init hfn herr hok
    rcases n with _ | m
    · exact absurd hfn (Nat.not_lt_zero _)
    · obtain ⟨d0, hd0⟩ := hok 0 (Nat.succ_pos f)
      simp only [Nat.add_zero] at hd0
      have herr' : dev.replaceResult (i + 1 + f) = Except.error e := by
        have hA : i + (f + 1) = i + 1 + f := by omega
        rw [hA] at herr; exact herr
      have hok' : ∀ k, k < f → ∃ dk, dev.replaceResult (i + 1 + k) = Except.ok dk := by
        intro k hk
        obtain ⟨dk, hdk⟩ := hok (k + 1) (Nat.succ_lt_succ hk)
        have hA : i + (k + 1) = i + 1 + k := by omega
        rw [hA] at hdk
        exact ⟨dk, hdk⟩
      have hfm : f < m := Nat.lt_of_succ_lt_succ hfn
      simp only [applyLoop, hd0, ih m (i + 1) (some d0) hfm herr' hok', List.range'_succ,
        List.map_cons]

/-- The apply loop never touches the lock: no unlock event in its trace. -/
theorem applyLoop_count_unlock (dev : Device) :
    ∀ (n i : Nat) (init : Option (Option String)),
      (applyLoop dev n i init).1.count Event.unlock = 0 := by
  intro n
  induction n with
  | zero => intro i init; rfl
  | succ m ih =>
    intro i init
    simp only [applyLoop]
    cases h : dev.replaceResult i with
    | error e => simp [List.count_cons]
    | ok d => simp [List.count_cons, ih (i + 1) (some d)]

/-- The decision step appends exactly one unlock event. -/
theorem decideStep_count_unlock (dev : Device) (cm dopt : Bool) (diff : Option String)
    (evs : List Event) (h : evs.count Event.unlock = 0) :
    (decideStep dev cm dopt diff evs).1.count Event.unlock = 1 := by
  unfold decideStep
  cases htr : truthy diff
  · simp [List.count_append, h]
  · cases cm
    · cases hc : dev.commitResult
      · simp [List.count_append, h]
      · simp [List.count_append, h]
    · simp [List.count_append, h]

/-- Every run of the locked section releases the lock exactly once. -/
theorem runEngine_count_unlock (dev : Device) (n : Nat) (cm dopt : Bool)
    (init : Option (Option String)) :
    (runEngine dev n cm dopt init).1.count Event.unlock = 1 := by
  simp only [runEngine]
  have hloop := applyLoop_count_unlock dev n 0 init
  cases hr : (applyLoop dev n 0 init).2 with
  | error e =>
    simp [hr, List.count_cons, List.count_append, hloop]
  | ok acc =>
    cases acc with
    | none => simp [hr, List.count_cons, List.count_append, hloop]
    | some d =>
      exact decideStep_count_unlock dev cm dopt d _ (by simp [List.count_cons, hloop])

/-- When every submission succeeds, the decision step is applied to the
diff of the LAST submission — whatever the loop variable's entry state
was, since every iteration overwrites it. -/
theorem runEngine_ok_all (dev : Device) (d : Nat → Option String) (n : Nat)
    (cm dopt : Bool) (init : Option (Option String)) (h0 : 0 < n)
    (hok : ∀ i, i < n → dev.replaceResult i = Except.ok (d i)) :
    runEngine dev n cm dopt init =
      decideStep dev cm dopt (d (n - 1))
        (Event.lock :: (List.range' 0 n).map Event.replace) := by
  have hn : ¬ n = 0 := by omega
  have hok' : ∀ j, j < n → dev.replaceResult (0 + j) = Except.ok (d (0 + j)) := by
    intro j hj; simpa using hok j hj
  have hloop := applyLoop_ok dev d n 0 init hok'
  simp only [runEngine, hloop, if_neg hn, Nat.zero_add]

/-- C1: for every invocation of junos_firewall or junos_pbr in which every
configuration replace submission returns an empty diff (all submissions
succeed and each returned diff is falsy), the engine calls neither commit
nor discard and returns changed = false — for junos_firewall at any batch
size, for junos_pbr whenever at least one submission is made (the
amendment; with zero submissions junos_pbr instead fails on the unbound
local `diff`, see the counterexample). -/
theorem claim_C1_empty_diffs_unchanged (dev : Device) (d : Nat → Option String)
    (n : Nat) (cm dopt : Bool)
    (hok : ∀ i, i < n → dev.replaceResult i = Except.ok (d i))
    (hemp : ∀ i, i < n → truthy (d i) = false) :
    junos_firewall_engine dev n cm dopt =
      (Event.lock :: (List.range' 0 n).map Event.replace ++ [Event.unlock],
       Outcome.ok false none)
    ∧ (0 < n → junos_pbr_engine dev n cm dopt =
      (Event.lock :: (List.range' 0 n).map Event.replace ++ [Event.unlock],
       Outcome.ok false none))
    ∧ Event.commit ∉ (junos_firewall_engine dev n cm dopt).1
    ∧ Event.discard ∉ (junos_firewall_engine dev n cm dopt).1 := by
  have hfw : junos_firewall_engine dev n cm dopt =
      (Event.lock :: (List.range' 0 n).map Event.replace ++ [Event.unlock],
       Outcome.ok false none) := by
    rcases Nat.eq_zero_or_pos n with h0 | h0
    · subst h0; rfl
    · rw [junos_firewall_engine, runEngine_ok_all dev d n cm dopt (some none) h0 hok]
      have ht := hemp (n - 1) (by omega)
      simp [decideStep, ht]
  have hpbr : 0 < n → junos_pbr_engine dev n cm dopt =
      (Event.lock :: (List.range' 0 n).map Event.replace ++ [Event.unlock],
       Outcome.ok false none) := by
    intro h0
    rw [junos_pbr_engine, runEngine_ok_all dev d n cm dopt none h0 hok]
    have ht := hemp (n - 1) (by omega)
    simp [decideStep, ht]
  refine ⟨hfw, hpbr, ?_, ?_⟩
  · rw [hfw]; simp
  · rw [hfw]; simp

/-- C1 witness: a one-request invocation against an already-converged
device returns changed = false with only lock, replace, unlock events. -/
theorem claim_C1_witness :
    junos_firewall_engine devNoDiff 1 false false =
      (Event.lock :: (List.range' 0 1).map Event.replace ++ [Event.unlock],
       Outcome.ok false none)
    ∧ junos_pbr_engine devNoDiff 1 false false =
      (Event.lock :: (List.range' 0 1).map Event.replace ++ [Event.unlock],
       Outcome.ok false none) := by
  have h := claim_C1_empty_diffs_unchanged devNoDiff (fun _ => none) 1 false false
    (fun _ _ => rfl) (fun _ _ => rfl)
  exact ⟨h.1, h.2.1 (by omega)⟩

/-- C1 counterexample: a junos_pbr invocation with `aggregate: []` makes
zero replace submissions — so vacuously every submission returned an
empty diff — yet does not return a changed = false result: reading the
unbound local `diff` raises a NameError inside the locked section. -/
theorem claim_C1_counterexample :
    junos_pbr_run pbrEmptyAggParams devNoDiff =
      ([Event.lock, Event.unlock], Outcome.nameError)
    ∧ (junos_pbr_run pbrEmptyAggParams devNoDiff).2 ≠ Outcome.ok false none := by
  exact ⟨rfl, by decide⟩

/-- C2 counterexample: with two request trees where the first replace
returns the non-empty diff "+ filter one" and the second returns none,
the decision step sees the overwritten (empty) value: the invocation
reports changed = false and the earlier non-empty diff IS lost — the code
keeps `diff = load_config(...)` of the last submission, not the last
non-empty diff. -/
theorem claim_C2_counterexample :
    junos_firewall_engine devLostDiff 2 false true =
      ([Event.lock, Event.replace 0, Event.replace 1, Event.unlock],
       Outcome.ok false none)
    ∧ devLostDiff.replaceResult 0 = Except.ok (some "+ filter one")
    ∧ (junos_firewall_engine devLostDiff 2 false true).2 ≠
        Outcome.ok true (some "+ filter one") := by
  exact ⟨rfl, rfl, by decide⟩

/-- C2 (amended): when several request trees are submitted in one
invocation and all succeed, the diff used by the decision step is the diff
returned by the LAST submission — each loop iteration overwrites `diff`,
so a non-empty diff from an earlier submission is lost when a later
submission returns an empty one. -/
theorem claim_C2_last_diff_decides (dev : Device) (d : Nat → Option String)
    (n : Nat) (cm dopt : Bool) (h0 : 0 < n)
    (hok : ∀ i, i < n → dev.replaceResult i = Except.ok (d i)) :
    junos_firewall_engine dev n cm dopt =
      decideStep dev cm dopt (d (n - 1))
        (Event.lock :: (List.range' 0 n).map Event.replace)
    ∧ junos_pbr_engine dev n cm dopt =
      decideStep dev cm dopt (d (n - 1))
        (Event.lock :: (List.range' 0 n).map Event.replace) :=
  ⟨runEngine_ok_all dev d n cm dopt (some none) h0 hok,
   runEngine_ok_all dev d n cm dopt none h0 hok⟩

/-- C2 witness at a concrete single-request invocation. -/
theorem claim_C2_witness :
    junos_firewall_engine devBigDiff 1 false true =
      decideStep devBigDiff false true (some "+ term added")
        (Event.lock :: (List.range' 0 1).map Event.replace)
    ∧ junos_pbr_engine devBigDiff 1 false true =
      decideStep devBigDiff false true (some "+ term added")
        (Event.lock :: (List.range' 0 1).map Event.replace) :=
  claim_C2_last_diff_decides devBigDiff (fun _ => some "+ term added") 1 false true
    (by omega) (fun _ _ => rfl)

/-- C3: in check/dry-run mode, when the submissions leave a non-empty
diff, the engine discards the pending change and never commits, still
reporting changed = true together with the computed diff text when the
diff option is enabled; no durable mutation (commit) occurs.  Holds for
both modules. -/
theorem claim_C3_check_mode_discards (dev : Device) (d : Nat → Option String)
    (n : Nat) (dopt : Bool) (h0 : 0 < n)
    (hok : ∀ i, i < n → dev.replaceResult i = Except.ok (d i))
    (ht : truthy (d (n - 1)) = true) :
    junos_firewall_engine dev n true dopt =
      ((Event.lock :: (List.range' 0 n).map Event.replace) ++
         [Event.discard, Event.unlock],
       Outcome.ok true (if dopt then d (n - 1) else none))
    ∧ junos_pbr_engine dev n true dopt =
      ((Event.lock :: (List.range' 0 n).map Event.replace) ++
         [Event.discard, Event.unlock],
       Outcome.ok true (if dopt then d (n - 1) else none))
    ∧ Event.commit ∉ (junos_firewall_engine dev n true dopt).1
    ∧ Event.commit ∉ (junos_pbr_engine dev n true dopt).1 := by
  have key : decideStep dev true dopt (d (n - 1))
      (Event.lock :: (List.range' 0 n).map Event.replace) =
      ((Event.lock :: (List.range' 0 n).map Event.replace) ++
         [Event.discard, Event.unlock],
       Outcome.ok true (if dopt then d (n - 1) else none)) := by
    simp [decideStep, ht]
  have hfw : junos_firewall_engine dev n true dopt =
      ((Event.lock :: (List.range' 0 n).map Event.replace) ++
         [Event.discard, Event.unlock],
       Outcome.ok true (if dopt then d (n - 1) else none)) := by
    rw [junos_firewall_engine, runEngine_ok_all dev d n true dopt (some none) h0 hok, key]
  have hpbr : junos_pbr_engine dev n true dopt =
      ((Event.lock :: (List.range' 0 n).map Event.replace) ++
         [Event.discard, Event.unlock],
       Outcome.ok true (if dopt then d (n - 1) else none)) := by
    rw [junos_pbr_engine, runEngine_ok_all dev d n true dopt none h0 hok, key]
  refine ⟨hfw, hpbr, ?_, ?_⟩
  · rw [hfw]; simp
  · rw [hpbr]; simp

/-- C3 witness: one staged request in check mode is discarded, never
committed, and reported as changed = true with its diff. -/
theorem claim_C3_witness :
    junos_firewall_engine devBigDiff 1 true true =
      ((Event.lock :: (List.range' 0 1).map Event.replace) ++
         [Event.discard, Event.unlock],
       Outcome.ok true (some "+ term added"))
    ∧ junos_pbr_engine devBigDiff 1 true true =
      ((Event.lock :: (List.range' 0 1).map Event.replace) ++
         [Event.discard, Event.unlock],
       Outcome.ok true (some "+ term added")) := by
  have h := claim_C3_check_mode_discards devBigDiff (fun _ => some "+ term added") 1 true
    (by omega) (fun _ _ => rfl) (by decide)
  exact ⟨h.1, h.2.1⟩

/-- C4: every run of the locked section releases the lock exactly once,
on every exit path; and when the replace submission at index `f` is
rejected after `f` successful ones, the engine stops there — the trace is
exactly lock, replace 0..f, unlock (no commit, no discard, no further
submissions) and the device error surfaces. -/
theorem claim_C4_lock_released_once (dev : Device) (n : Nat) (cm dopt : Bool) :
    ((junos_firewall_engine dev n cm dopt).1.count Event.unlock = 1
      ∧ (junos_pbr_engine dev n cm dopt).1.count Event.unlock = 1)
    ∧ (∀ f e, f < n → dev.replaceResult f = Except.error e →
        (∀ k, k < f → ∃ dk, dev.replaceResult k = Except.ok dk) →
        junos_firewall_engine dev n cm dopt =
          (Event.lock :: (List.range' 0 (f + 1)).map Event.replace ++ [Event.unlock],
           Outcome.applyFailed e)
        ∧ junos_pbr_engine dev n cm dopt =
          (Event.lock :: (List.range' 0 (f + 1)).map Event.replace ++ [Event.unlock],
           Outcome.applyFailed e)
        ∧ ∀ j, Event.replace j ∈ (junos_firewall_engine dev n cm dopt).1 → j ≤ f) := by
  refine ⟨⟨runEngine_count_unlock dev n cm dopt (some none),
           runEngine_count_unlock dev n cm dopt none⟩, ?_⟩
  intro f e hfn herr hok
  have herr' : dev.replaceResult (0 + f) = Except.error e := by simpa using herr
  have hok' : ∀ k, k < f → ∃ dk, dev.replaceResult (0 + k) = Except.ok dk := by
    intro k hk; simpa using hok k hk
  have hfw : junos_firewall_engine dev n cm dopt =
      (Event.lock :: (List.range' 0 (f + 1)).map Event.replace ++ [Event.unlock],
       Outcome.applyFailed e) := by
    simp only [junos_firewall_engine, runEngine,
      applyLoop_error dev e f n 0 (some none) hfn herr' hok']
  have hpbr : junos_pbr_engine dev n cm dopt =
      (Event.lock :: (List.range' 0 (f + 1)).map Event.replace ++ [Event.unlock],
       Outcome.applyFailed e) := by
    simp only [junos_pbr_engine, runEngine,
      applyLoop_error dev e f n 0 none hfn herr' hok']
  refine ⟨hfw, hpbr, ?_⟩
  intro j hj
  rw [hfw] at hj
  simp only [List.mem_append, List.mem_cons, List.mem_map, List.mem_range'_1,
    List.mem_singleton] at hj
  rcases hj with (h | ⟨i, hi, hij⟩) | h | h
  · cases h
  · cases hij
    omega
  · cases h
  · cases h

/-- C4 witness: three trees, the second rejected — the lock is released
exactly once and the third tree is never submitted. -/
theorem claim_C4_witness :
    (junos_firewall_engine devRejectSecond 3 false false).1.count Event.unlock = 1
    ∧ junos_firewall_engine devRejectSecond 3 false false =
        (Event.lock :: (List.range' 0 2).map Event.replace ++ [Event.unlock],
         Outcome.applyFailed "config rejected")
    ∧ junos_pbr_engine devRejectSecond 3 false false =
        (Event.lock :: (List.range' 0 2).map Event.replace ++ [Event.unlock],
         Outcome.applyFailed "config rejected") := by
  have h := claim_C4_lock_released_once devRejectSecond 3 false false
  have h2 := h.2 1 "config rejected" (by omega) rfl
    (fun k hk => by
      have hk0 : k = 0 := by omega
      subst hk0
      exact ⟨some "+ staged", rfl⟩)
  exact ⟨h.1.1, h2.1, h2.2.1⟩

/-- C10: junos_pbr assigns `diff` only inside the per-request loop, so an
invocation whose resolved parameter list is empty (e.g. `aggregate: []`)
reads an unbound local at `if diff:` and fails with a NameError inside the
locked section, while junos_firewall — which runs `diff = None` before the
loop — returns changed = false in the same situation. -/
theorem claim_C10_unbound_diff (dev : Device) (cm dopt : Bool)
    (nm nh st : Option String) (ac : Option Bool) :
    junos_pbr_engine dev 0 cm dopt = ([Event.lock, Event.unlock], Outcome.nameError)
    ∧ junos_firewall_engine dev 0 cm dopt =
        ([Event.lock, Event.unlock], Outcome.ok false none)
    ∧ junos_pbr_run
        { aggregate := some [], name := nm, address := none, next_hop := nh,
          state := st, active := ac, check_mode := cm, diffMode := dopt } dev =
        ([Event.lock, Event.unlock], Outcome.nameError)
    ∧ junos_firewall_run
        { aggregate := some [], name := none, terms := none, state := st,
          family := none, active := ac, check_mode := cm, diffMode := dopt } dev =
        ([Event.lock, Event.unlock], Outcome.ok false none) :=
  ⟨rfl, rfl, rfl, rfl⟩

/-- C7: supplying both the aggregate list and the singular identity field
(`name` for junos_firewall, `address` for junos_pbr) fails validation
before any transport operation: the event trace is empty — zero lock,
replace, commit or discard calls. -/
theorem claim_C7_mutually_exclusive (pf : FwParams) (pp : PbrParams) (dev : Device)
    (h1 : pf.aggregate.isSome = true) (h2 : pf.name.isSome = true)
    (h3 : pp.aggregate.isSome = true) (h4 : pp.address.isSome = true) :
    junos_firewall_run pf dev =
      ([], Outcome.validationFailed "parameters are mutually exclusive: aggregate|name")
    ∧ junos_pbr_run pp dev =
      ([], Outcome.validationFailed "parameters are mutually exclusive: aggregate|address") := by
  constructor
  · simp [junos_firewall_run, h1, h2]
  · simp [junos_pbr_run, h3, h4]

/-- C7 witness at concrete invocations supplying both fields. -/
theorem claim_C7_witness :
    junos_firewall_run { aggregate := some [], name := some "f1" } devNoDiff =
      ([], Outcome.validationFailed "parameters are mutually exclusive: aggregate|name")
    ∧ junos_pbr_run { aggregate := some [], address := some "10.0.0.0/24" } devNoDiff =
      ([], Outcome.validationFailed "parameters are mutually exclusive: aggregate|address") :=
  claim_C7_mutually_exclusive _ _ devNoDiff rfl rfl rfl rfl

/-- C8 (code-bug evaluation): the coupled-pair check of `junos_pbr.main`
is one-directional.  At the failing input `state=present,
address='10.0.0.0/24', next_hop` absent, the module raises no validation
failure at all — it proceeds to lock and load the configuration — although
the module's own DOCUMENTATION marks `next_hop` as required and its error
message text says the parameters are "required together".  The opposite
direction (truthy `next_hop`, falsy `address`) does fail, before any
transport call. -/
theorem claim_C8_one_directional_check :
    junos_pbr_run pbrMissingNextHop devNoDiff =
      ([Event.lock, Event.replace 0, Event.unlock], Outcome.ok false none)
    ∧ (junos_pbr_run pbrMissingNextHop devNoDiff).2 ≠
        Outcome.validationFailed "parameters are required together: ['address', 'next_hop']"
    ∧ junos_pbr_run pbrMissingAddress devNoDiff =
      ([], Outcome.validationFailed "parameters are required together: ['address', 'next_hop']") := by
  exact ⟨rfl, by decide, rfl⟩

/-- C9: `junos_pbr.main` unconditionally overwrites `item['type']` with
`'forwarding'` on every item that survives the per-item checks, so every
rendered routing-instance request tree carries an `instance-type` node
with value `forwarding` under the default anchor, regardless of what the
caller supplied in the item. -/
theorem claim_C9_forwarding_type (p : PbrParams) (it0 it : PbrItem)
    (h : pbrProcessItem p it0 = Except.ok it) :
    it.type = some "forwarding"
    ∧ ({ base := pbrTop, xpath := "instance-type", value := "forwarding",
         is_key := false } : MappedNode) ∈ pbrRequest it := by
  unfold pbrProcessItem at h
  by_cases hc : ((pbrResolve p it0).state == some "present"
      && !(truthy (pbrResolve p it0).address)
      && truthy (pbrResolve p it0).next_hop) = true
  · rw [if_pos hc] at h; cases h
  · rw [if_neg hc] at h
    injection h with h'
    subst h'
    refine ⟨rfl, ?_⟩
    apply List.mem_filterMap.mpr
    refine ⟨("type", { xpath := "instance-type" }), ?_, rfl⟩
    simp [pbr_param_to_xpath_map]

/-- C9 witness at a complete concrete invocation. -/
theorem claim_C9_witness :
    pbrFullResolved.type = some "forwarding"
    ∧ ({ base := pbrTop, xpath := "instance-type", value := "forwarding",
         is_key := false } : MappedNode) ∈ pbrRequest pbrFullResolved :=
  claim_C9_forwarding_type pbrFullParams (pbrTopItem pbrFullParams) pbrFullResolved rfl

/-! ### `Nat.repr` is injective, so positional synthetic names are
distinct.  Proved through `natDigits` / `decodeDigits`. -/

/-- The decimal digit characters decode back to their values. -/
theorem digitVal_digitChar : ∀ m, m < 10 → digitVal (Nat.digitChar m) = m := by
  decide

/-- `Nat.toDigitsCore` with enough fuel computes `natDigits`. -/
theorem toDigitsCore_eq : ∀ (fuel n : Nat) (ds : List Char), n < fuel →
    Nat.toDigitsCore 10 fuel n ds = natDigits n ++ ds := by
  intro fuel
  induction fuel with
  | zero => intro n ds h; exact absurd h (Nat.not_lt_zero n)
  | succ f ih =>
    intro n ds h
    simp only [Nat.toDigitsCore]
    by_cases h0 : n / 10 = 0
    · rw [if_pos h0, natDigits, dif_pos h0]
      simp
    · rw [if_neg h0]
      have hn : 0 < n := by omega
      have hlt : n / 10 < f := by
        have h1 : n / 10 < n := Nat.div_lt_self hn (by omega)
        omega
      rw [ih (n / 10) (Nat.digitChar (n % 10) :: ds) hlt]
      conv_rhs => rw [natDigits, dif_neg h0]
      simp

/-- `Nat.repr` renders exactly the `natDigits` of the number. -/
theorem repr_eq_natDigits (n : Nat) : Nat.repr n = (natDigits n).asString := by
  show (Nat.toDigits 10 n).asString = (natDigits n).asString
  rw [Nat.toDigits, toDigitsCore_eq (n + 1) n [] (Nat.lt_succ_self n), List.append_nil]

/-- Decimal decoding inverts `natDigits`. -/
theorem decode_natDigits (n : Nat) : decodeDigits (natDigits n) = n := by
  induction n using Nat.strong_induction_on with
  | _ n ih =>
    by_cases h0 : n / 10 = 0
    · rw [natDigits, dif_pos h0]
      have hn : n < 10 := by omega
      have hdg := digitVal_digitChar (n % 10) (Nat.mod_lt _ (by omega))
      rw [Nat.mod_eq_of_lt hn] at hdg
      simp [decodeDigits, hdg, Nat.mod_eq_of_lt hn]
    · rw [natDigits, dif_neg h0]
      have hn : 0 < n := by omega
      have ih' := ih (n / 10) (Nat.div_lt_self hn (by omega))
      have hdg := digitVal_digitChar (n % 10) (Nat.mod_lt _ (by omega))
      simp only [decodeDigits, List.foldl_append] at ih' ⊢
      simp only [List.foldl_cons, List.foldl_nil, ih', hdg]
      omega

/-- Distinct numbers have distinct decimal representations. -/
theorem repr_injective : Function.Injective Nat.repr := by
  intro a b h
  rw [repr_eq_natDigits, repr_eq_natDigits] at h
  have hdata := congrArg String.data h
  simp only [List.asString] at hdata
  have hdig : natDigits a = natDigits b := hdata
  have := congrArg decodeDigits hdig
  rwa [decode_natDigits, decode_natDigits] at this

/-- Synthetic term names are injective in the index. -/
theorem termName_injective : Function.Injective termName := by
  intro a b h
  unfold termName at h
  have hd := congrArg String.data h
  rw [String.data_append, String.data_append] at hd
  have hdd := List.append_cancel_left hd
  exact repr_injective (String.ext hdd)

/-! ### Renderer lemmas for the term-naming claims.
Top-level term values are assumed non-list (`isListVal` false): the
argument spec types `name` as str and `from`/`then` as dict, so a
validated term dict never carries a list at its top level. -/

/-- Every node of `nodeOf` carries the entry key as its tag. -/
theorem tagOf_nodeOf (k : String) (v : PyVal) : tagOf (nodeOf k v) = k := by
  cases v <;> rfl

/-- A non-list value renders as exactly its one node. -/
theorem renderVal_nonlist (k : String) (v : PyVal) (h : isListVal v = false) :
    renderVal k v = [nodeOf k v] := by
  cases v with
  | str s => rfl
  | null => rfl
  | dict fs => rfl
  | list xs => simp [isListVal] at h

/-- A dict with no `name` key renders no `name`-tagged child. -/
theorem renderFields_find?_name_none (fs : TermDict)
    (hnl : fs.all (fun kv => !isListVal kv.2) = true)
    (h : fs.find? (fun kv => kv.1 == "name") = none) :
    (renderFields fs).find? (fun c => tagOf c == "name") = none := by
  induction fs with
  | nil => rfl
  | cons kv fs ih =>
    simp only [List.all_cons, Bool.and_eq_true] at hnl
    have hnl1 : isListVal kv.2 = false := by simpa using hnl.1
    cases hp : (kv.1 == "name") with
    | true => simp only [List.find?, hp] at h; cases h
    | false =>
      simp only [List.find?, hp] at h
      simp only [renderFields, renderVal_nonlist kv.1 kv.2 hnl1, List.singleton_append,
        List.find?, tagOf_nodeOf, hp]
      exact ih hnl.2 h

/-- The first `name`-tagged rendered child is the node of the first
`name` entry of the dict. -/
theorem renderFields_find?_name_some (fs : TermDict) (kv0 : String × PyVal)
    (hnl : fs.all (fun kv => !isListVal kv.2) = true)
    (h : fs.find? (fun kv => kv.1 == "name") = some kv0) :
    (renderFields fs).find? (fun c => tagOf c == "name") =
      some (nodeOf kv0.1 kv0.2) := by
  induction fs with
  | nil => cases h
  | cons kv fs ih =>
    simp only [List.all_cons, Bool.and_eq_true] at hnl
    have hnl1 : isListVal kv.2 = false := by simpa using hnl.1
    cases hp : (kv.1 == "name") with
    | true =>
      simp only [List.find?, hp] at h
      injection h with h'
      subst h'
      simp only [renderFields, renderVal_nonlist kv.1 kv.2 hnl1, List.singleton_append,
        List.find?, tagOf_nodeOf, hp]
    | false =>
      simp only [List.find?, hp] at h
      simp only [renderFields, renderVal_nonlist kv.1 kv.2 hnl1, List.singleton_append,
        List.find?, tagOf_nodeOf, hp]
      exact ih hnl.2 h

/-- The rendered children carry as many `name` tags as the dict has
`name` keys. -/
theorem renderFields_countP_name (fs : TermDict)
    (hnl : fs.all (fun kv => !isListVal kv.2) = true) :
    (renderFields fs).countP (fun c => tagOf c == "name") =
      fs.countP (fun kv => kv.1 == "name") := by
  induction fs with
  | nil => rfl
  | cons kv fs ih =>
    simp only [List.all_cons, Bool.and_eq_true] at hnl
    have hnl1 : isListVal kv.2 = false := by simpa using hnl.1
    simp only [renderFields, renderVal_nonlist kv.1 kv.2 hnl1, List.singleton_append,
      List.countP_cons, tagOf_nodeOf, ih hnl.2]

/-- Moving the first `name` child to the front does not change which node
is the first `name` child. -/
theorem find?_moveNameToFront (ch : List XNode) :
    (moveNameToFront ch).find? (fun c => tagOf c == "name") =
      ch.find? (fun c => tagOf c == "name") := by
  unfold moveNameToFront
  cases hf : ch.find? (fun c => tagOf c == "name") with
  | none => exact hf
  | some nm =>
    have hp := List.find?_some hf
    show List.find? (fun c => tagOf c == "name")
        (nm :: List.eraseP (fun c => tagOf c == "name") ch) = some nm
    simp only [List.find?, hp]

/-- Erasing one match decrements the match count. -/
theorem countP_eraseP_of_pos {α : Type} (p : α → Bool) (l : List α)
    (h : 0 < l.countP p) : (l.eraseP p).countP p = l.countP p - 1 := by
  induction l with
  | nil => simp at h
  | cons a l ih =>
    cases hp : p a with
    | true =>
      rw [List.eraseP_cons_of_pos hp]
      simp [List.countP_cons, hp]
    | false =>
      rw [List.eraseP_cons_of_neg (by simp [hp])]
      have h' : 0 < l.countP p := by simpa [List.countP_cons, hp] using h
      simp [List.countP_cons, hp, ih h']

/-- With exactly one `name`-tagged child, `moveNameToFront` puts a `name`
element first and keeps the `name` count at one. -/
theorem moveNameToFront_spec (ch : List XNode)
    (h : ch.countP (fun c => tagOf c == "name") = 1) :
    ∃ txt sub, (moveNameToFront ch).head? = some (XNode.elem "name" txt sub)
      ∧ (moveNameToFront ch).countP (fun c => tagOf c == "name") = 1 := by
  unfold moveNameToFront
  cases hf : ch.find? (fun c => tagOf c == "name") with
  | none =>
    rw [List.find?_eq_none] at hf
    rw [List.countP_eq_zero.mpr hf] at h
    cases h
  | some nm =>
    have hp := List.find?_some hf
    cases nm with
    | elem tg txt sub =>
      have htg : tg = "name" := by simpa [tagOf] using hp
      subst htg
      refine ⟨txt, sub, rfl, ?_⟩
      rw [List.countP_cons]
      have hpos : 0 < ch.countP (fun c => tagOf c == "name") := by omega
      rw [countP_eraseP_of_pos _ _ hpos, h]
      simp [tagOf]

/-- `find?` skips a prefix with no match. -/
theorem find?_append_of_none {α : Type} (p : α → Bool) (l1 l2 : List α)
    (h : l1.find? p = none) : (l1 ++ l2).find? p = l2.find? p := by
  induction l1 with
  | nil => rfl
  | cons a l ih =>
    cases hp : p a with
    | true => simp only [List.find?, hp] at h; cases h
    | false =>
      simp only [List.find?, hp] at h
      rw [List.cons_append]
      simp only [List.find?, hp]
      exact ih h

/-- Auto-naming preserves the absence of top-level list values. -/
theorem assignName_all_nonlist (i : Nat) (t : TermDict)
    (h : t.all (fun kv => !isListVal kv.2) = true) :
    (assignName i t).all (fun kv => !isListVal kv.2) = true := by
  unfold assignName
  by_cases htr : truthyName t = true
  · rw [if_pos htr]; exact h
  · rw [if_neg htr]
    unfold dictSet
    by_cases hany : (t.any (fun kv => kv.1 == "name")) = true
    · rw [if_pos hany]
      rw [List.all_map]
      rw [List.all_eq_true] at h ⊢
      intro kv hkv
      by_cases hk : (kv.1 == "name") = true
      · simp [Function.comp, hk, isListVal]
      · simp only [Function.comp]
        rw [if_neg hk]
        exact h kv hkv
    · rw [if_neg hany]
      rw [List.all_append, h]
      simp [isListVal]

/-- After auto-naming, the dict has exactly one `name` key (Python dict
keys are unique, so at most one `name` key occurs, which is the
hypothesis). -/
theorem assignName_countP (i : Nat) (t : TermDict)
    (hk : t.countP (fun kv => kv.1 == "name") ≤ 1) :
    (assignName i t).countP (fun kv => kv.1 == "name") = 1 := by
  unfold assignName
  by_cases htr : truthyName t = true
  · rw [if_pos htr]
    have hex : ∃ kv ∈ t, (kv.1 == "name") = true := by
      unfold truthyName dictGet at htr
      cases hf : t.find? (fun kv => kv.1 == "name") with
      | none => rw [hf] at htr; simp at htr
      | some kv =>
        have hkv := List.find?_some hf
        exact ⟨kv, List.mem_of_find?_eq_some hf, hkv⟩
    have hpos : 0 < t.countP (fun kv => kv.1 == "name") :=
      List.countP_pos_iff.mpr hex
    omega
  · rw [if_neg htr]
    unfold dictSet
    by_cases hany : (t.any (fun kv => kv.1 == "name")) = true
    · rw [if_pos hany]
      have hpos : 0 < t.countP (fun kv => kv.1 == "name") :=
        List.countP_pos_iff.mpr (List.any_eq_true.mp hany)
      rw [List.countP_map]
      have hcomp : ((fun (kv : String × PyVal) => kv.1 == "name") ∘
          (fun kv => if kv.1 == "name" then ("name", PyVal.str (termName i)) else kv)) =
          (fun (kv : String × PyVal) => kv.1 == "name") := by
        funext kv
        by_cases hkv : (kv.1 == "name") = true
        · simp [Function.comp, hkv]
        · simp [Function.comp, hkv]
      rw [hcomp]
      omega
    · rw [if_neg hany]
      have hanyf : t.any (fun kv => kv.1 == "name") = false := by
        cases hb : t.any (fun kv => kv.1 == "name") with
        | true => exact absurd hb hany
        | false => rfl
      rw [List.countP_append]
      rw [List.countP_eq_zero.mpr (List.any_eq_false.mp hanyf)]
      simp

/-- When the term lacks a truthy name, auto-naming makes the first `name`
entry the synthetic one. -/
theorem assignName_find?_of_not_truthy (i : Nat) (t : TermDict)
    (h : truthyName t = false) :
    (assignName i t).find? (fun kv => kv.1 == "name") =
      some ("name", PyVal.str (termName i)) := by
  unfold assignName
  rw [if_neg (by simp [h])]
  unfold dictSet
  by_cases hany : (t.any (fun kv => kv.1 == "name")) = true
  · rw [if_pos hany]
    rw [List.find?_map]
    have hcomp : ((fun (kv : String × PyVal) => kv.1 == "name") ∘
        (fun kv => if kv.1 == "name" then ("name", PyVal.str (termName i)) else kv)) =
        (fun (kv : String × PyVal) => kv.1 == "name") := by
      funext kv
      by_cases hkv : (kv.1 == "name") = true
      · simp [Function.comp, hkv]
      · simp [Function.comp, hkv]
    rw [hcomp]
    obtain ⟨kv, hmem, hkv⟩ := List.any_eq_true.mp hany
    cases hf : t.find? (fun kv => kv.1 == "name") with
    | none =>
      rw [List.find?_eq_none] at hf
      exact absurd hkv (hf kv hmem)
    | some kv0 =>
      have hkey : kv0.1 = "name" := by simpa using List.find?_some hf
      simp [hkey]
  · rw [if_neg hany]
    have hanyf : t.any (fun kv => kv.1 == "name") = false := by
      cases hb : t.any (fun kv => kv.1 == "name") with
      | true => exact absurd hb hany
      | false => rfl
    rw [find?_append_of_none _ _ _ (List.find?_eq_none.mpr (List.any_eq_false.mp hanyf))]
    simp [List.find?]

/-- The name a built term node carries is read off the rendered children
of the auto-named dict. -/
theorem termNameOf_build (i : Nat) (t : TermDict) :
    termNameOf (buildTermNode i t) =
      match (renderFields (assignName i t)).find? (fun c => tagOf c == "name") with
      | some c => textOf c
      | none => none := by
  show (match (moveNameToFront (renderFields (assignName i t))).find?
      (fun c => tagOf c == "name") with
    | some c => textOf c
    | none => none) = _
  rw [find?_moveNameToFront]

/-- A term without a truthy name gets the synthetic positional name. -/
theorem buildTermNode_auto_name (i : Nat) (t : TermDict)
    (ht : truthyName t = false)
    (hnl : t.all (fun kv => !isListVal kv.2) = true) :
    termNameOf (buildTermNode i t) = some (termName i) := by
  rw [termNameOf_build,
    renderFields_find?_name_some (assignName i t) ("name", PyVal.str (termName i))
      (assignName_all_nonlist i t hnl) (assignName_find?_of_not_truthy i t ht)]
  rfl

/-- A term with an explicit non-empty name keeps it. -/
theorem buildTermNode_explicit_name (i : Nat) (t : TermDict) (s : String)
    (hg : dictGet t "name" = some (PyVal.str s)) (hs : (s == "") = false)
    (hnl : t.all (fun kv => !isListVal kv.2) = true) :
    termNameOf (buildTermNode i t) = some s := by
  have htr : truthyName t = true := by simp [truthyName, hg, pyTruthy, hs]
  have ha : assignName i t = t := by simp [assignName, htr]
  obtain ⟨kv0, hf, hv⟩ : ∃ kv0, t.find? (fun kv => kv.1 == "name") = some kv0
      ∧ kv0.2 = PyVal.str s := by
    unfold dictGet at hg
    cases hf : t.find? (fun kv => kv.1 == "name") with
    | none => rw [hf] at hg; cases hg
    | some kv0 =>
      rw [hf] at hg
      refine ⟨kv0, rfl, ?_⟩
      simpa using hg
  rw [termNameOf_build, ha, renderFields_find?_name_some t kv0 hnl hf, hv]
  rfl

/-- All-unnamed term lists render the positional synthetic names
term_0 .. term_(N-1), in order. -/
theorem termNodes_auto_names (ts : List TermDict)
    (h : ∀ t ∈ ts, truthyName t = false ∧ t.all (fun kv => !isListVal kv.2) = true) :
    (termNodes ts).map termNameOf =
      (List.range ts.length).map (fun i => some (termName i)) := by
  unfold termNodes
  rw [List.map_map]
  have hcong : ∀ it ∈ ts.enum,
      (termNameOf ∘ fun it => buildTermNode it.1 it.2) it = some (termName it.1) := by
    intro it hit
    obtain ⟨i, t⟩ := it
    have hm := List.mem_enum hit
    have htm : t ∈ ts := by
      rw [hm.2]
      exact List.getElem_mem hm.1
    obtain ⟨h1, h2⟩ := h t htm
    exact buildTermNode_auto_name i t h1 h2
  rw [List.map_congr_left hcong]
  have hfun : (fun (it : Nat × TermDict) => some (termName it.1)) =
      (fun i => some (termName i)) ∘ Prod.fst := rfl
  rw [hfun, ← List.map_map, List.enum_map_fst]

/-- All-unnamed term lists have pairwise-distinct rendered names. -/
theorem termNodes_auto_names_nodup (ts : List TermDict)
    (h : ∀ t ∈ ts, truthyName t = false ∧ t.all (fun kv => !isListVal kv.2) = true) :
    ((termNodes ts).map termNameOf).Nodup := by
  rw [termNodes_auto_names ts h]
  refine List.Nodup.map ?_ (List.nodup_range ts.length)
  intro a b hab
  injection hab with hab'
  exact termName_injective hab'

/-- C5 (amended): a term lacking a (truthy) name is assigned the
synthetic name `term_<zero-based position>`, a term with an explicit
non-empty name keeps it, and when EVERY term lacks a name the N appended
term nodes carry the distinct, deterministic, order-derived names
term_0 .. term_(N-1); for N = 0 the anchor tree is returned unmodified;
for N > 0 the nodes are appended, in order, to the children of the
`filter` anchor element.  (The original claim's unconditional
distinctness fails when an explicit name collides with a synthetic one —
see the counterexample; term dicts are assumed to carry no top-level
list values, which the argument spec guarantees.) -/
theorem claim_C5_term_auto_naming :
    (∀ ele, set_term_ele ele [] = ele)
    ∧ (∀ i t, truthyName t = false → t.all (fun kv => !isListVal kv.2) = true →
        termNameOf (buildTermNode i t) = some (termName i))
    ∧ (∀ i t s, dictGet t "name" = some (PyVal.str s) → (s == "") = false →
        t.all (fun kv => !isListVal kv.2) = true →
        termNameOf (buildTermNode i t) = some s)
    ∧ (∀ ts : List TermDict,
        (∀ t ∈ ts, truthyName t = false ∧ t.all (fun kv => !isListVal kv.2) = true) →
        (termNodes ts).map termNameOf =
          (List.range ts.length).map (fun i => some (termName i))
        ∧ ((termNodes ts).map termNameOf).Nodup)
    ∧ (∀ nm ts, ts ≠ [] →
        set_term_ele (fw_map_obj_to_ele (some "inet") (some nm)) ts =
          XNode.elem "firewall" none
            [XNode.elem "family" none
              [XNode.elem "inet" none
                [XNode.elem "filter" none
                  (XNode.elem "name" (some nm) [] :: termNodes ts)]]]) := by
  refine ⟨fun ele => rfl, buildTermNode_auto_name,
    fun i t s hg hs hnl => buildTermNode_explicit_name i t s hg hs hnl,
    fun ts h => ⟨termNodes_auto_names ts h, termNodes_auto_names_nodup ts h⟩,
    ?_⟩
  intro nm ts h
  obtain ⟨t0, ts', rfl⟩ := List.exists_cons_of_ne_nil h
  rfl

/-- C5 counterexample: with the two terms `[{'name': 'term_1'}, {}]` the
explicit name of the first term collides with the synthetic positional
name of the second — the appended term nodes both carry the name
`term_1`, so the rendered names are NOT distinct as the claim asserts
unconditionally. -/
theorem claim_C5_counterexample :
    (termNodes collidingTerms).map termNameOf = [some "term_1", some "term_1"]
    ∧ ¬ ((termNodes collidingTerms).map termNameOf).Nodup := by
  exact ⟨rfl, by decide⟩

/-- C5 witness: concrete instances of every conjunct of the amended
claim. -/
theorem claim_C5_witness :
    set_term_ele (XNode.elem "filter" none []) [] = XNode.elem "filter" none []
    ∧ termNameOf (buildTermNode 0 discardTerm) = some (termName 0)
    ∧ termNameOf (buildTermNode 1 [("name", PyVal.str "custom")]) = some "custom"
    ∧ ((termNodes [discardTerm, discardTerm]).map termNameOf =
        (List.range 2).map (fun i => some (termName i))
       ∧ ((termNodes [discardTerm, discardTerm]).map termNameOf).Nodup)
    ∧ set_term_ele (fw_map_obj_to_ele (some "inet") (some "f1")) [discardTerm] =
        XNode.elem "firewall" none
          [XNode.elem "family" none
            [XNode.elem "inet" none
              [XNode.elem "filter" none
                (XNode.elem "name" (some "f1") [] :: termNodes [discardTerm])]]] := by
  have h := claim_C5_term_auto_naming
  exact ⟨h.1 _,
    h.2.1 0 discardTerm rfl rfl,
    h.2.2.1 1 [("name", PyVal.str "custom")] "custom" rfl rfl rfl,
    h.2.2.2.1 [discardTerm, discardTerm] (by decide),
    h.2.2.2.2 "f1" [discardTerm] (by simp)⟩

/-- C6: for every term, whatever order its fields were supplied in, the
first child of the built term node is the term's `name` element, and
exactly one `name`-tagged element occurs among the children.  (The
hypotheses are the Python-dict invariant that the `name` key occurs at
most once and the argument-spec typing that no top-level term value is a
list; the lxml branch of the module's import is modelled, under which
`insert(0, find('name'))` moves the existing element.) -/
theorem claim_C6_name_first_child (i : Nat) (t : TermDict)
    (hk : t.countP (fun kv => kv.1 == "name") ≤ 1)
    (hnl : t.all (fun kv => !isListVal kv.2) = true) :
    ∃ txt sub,
      (childrenOf (buildTermNode i t)).head? = some (XNode.elem "name" txt sub)
      ∧ (childrenOf (buildTermNode i t)).countP (fun c => tagOf c == "name") = 1 := by
  have h1 := assignName_countP i t hk
  have h2 := assignName_all_nonlist i t hnl
  have hcnt : (renderFields (assignName i t)).countP (fun c => tagOf c == "name") = 1 := by
    rw [renderFields_countP_name _ h2, h1]
  exact moveNameToFront_spec _ hcnt

/-- C6 witness: a term supplied with its name field last still renders
with the name element first, occurring once. -/
theorem claim_C6_witness :
    ∃ txt sub,
      (childrenOf (buildTermNode 0 reorderedTerm)).head? =
        some (XNode.elem "name" txt sub)
      ∧ (childrenOf (buildTermNode 0 reorderedTerm)).countP
          (fun c => tagOf c == "name") = 1 :=
  claim_C6_name_first_child 0 reorderedTerm (by decide) (by decide)

end Junos
